import Mathlib

/-!
Shallow embedding of the psrenergy/database core (C++ over SQLite) in Lean 4,
with theorems settling the frozen claims about its specification.

The embedding mirrors, definition by definition:
  * `psr::TypeValidator::validate_value`   (src/type_validator.cpp)
  * `psr::Element` / `psr::ElementBuilder` (element.cpp, element_builder.cpp;
     both hold `std::map<std::string, Value>` members)
  * `psr::Transaction`                     (src/transaction.cpp)
  * `psr::Migrations::Migrations(path)`    (migrations.cpp)
  * the C ABI null-argument guards         (src/c_api.cpp)
  * `split_sql_statements` and the four schema validators of src/c_api.cpp
    (`validate_foreign_key_actions`, `validate_vector_tables`,
     `validate_no_duplicated_attributes`, `validate_collection_tables`),
    together with the loading pipeline of `psr_database_from_sql_file`.
-/

set_option maxRecDepth 100000

namespace PsrDb

/-! ## Value and ColumnType (psr/column_type.h, the `psr::Value` variant)

`psr::Value` is `std::variant<std::nullptr_t, int64_t, double, std::string,
std::vector<uint8_t>, std::vector<int64_t>, std::vector<double>,
std::vector<std::string>>` (the eight alternatives visited in
`TypeValidator::validate_value`).  A C++ `double` payload is carried as its
64-bit pattern; the core never computes with it in the code modelled here. -/

structure F64 where
  bits : UInt64
deriving DecidableEq, Repr

inductive ColumnType where
  | Integer
  | Real
  | Text
  | Blob
deriving DecidableEq, Repr

def column_type_to_string : ColumnType → String
  | ColumnType.Integer => "INTEGER"
  | ColumnType.Real => "REAL"
  | ColumnType.Text => "TEXT"
  | ColumnType.Blob => "BLOB"

inductive Value where
  | vnull
  | vint (i : Int)
  | vreal (r : F64)
  | vtext (s : String)
  | vblob (bytes : List UInt8)
  | vintVec (xs : List Int)
  | vrealVec (xs : List F64)
  | vtextVec (xs : List String)
deriving DecidableEq, Repr

/-! ## TypeValidator::validate_value (src/type_validator.cpp)

The C++ throws `std::runtime_error("Type mismatch for " + context +
": expected " + column_type_to_string(expected) + ", got " + tag)`.
We carry the same data in a structured error instead of the message text. -/

structure TypeError where
  context : String
  expected : String
  got : String
deriving DecidableEq, Repr

def mismatch (context : String) (expected : ColumnType) (got : String) : TypeError :=
  ⟨context, column_type_to_string expected, got⟩

def validate_value (context : String) (expected : ColumnType) (value : Value) :
    Except TypeError Unit :=
  match value with
  | Value.vnull => Except.ok ()                -- NULL allowed for any type
  | Value.vblob _ => Except.ok ()              -- BLOB allowed for any type
  | Value.vint _ =>
      if expected ≠ ColumnType.Integer then
        Except.error (mismatch context expected "INTEGER")
      else Except.ok ()
  | Value.vreal _ =>
      -- REAL can be stored in INTEGER or REAL columns
      if expected ≠ ColumnType.Real ∧ expected ≠ ColumnType.Integer then
        Except.error (mismatch context expected "REAL")
      else Except.ok ()
  | Value.vtext _ =>
      if expected ≠ ColumnType.Text then
        Except.error (mismatch context expected "TEXT")
      else Except.ok ()
  | Value.vintVec _ =>
      if expected ≠ ColumnType.Integer then
        Except.error (mismatch context expected "INTEGER[]")
      else Except.ok ()
  | Value.vrealVec _ =>
      if expected ≠ ColumnType.Real ∧ expected ≠ ColumnType.Integer then
        Except.error (mismatch context expected "REAL[]")
      else Except.ok ()
  | Value.vtextVec _ =>
      if expected ≠ ColumnType.Text then
        Except.error (mismatch context expected "TEXT[]")
      else Except.ok ()

end PsrDb

namespace PsrDb

/-! ## psr::Element (element.cpp) and psr::ElementBuilder (element_builder.cpp)

Both classes hold `std::map<std::string, Value> scalars_` and
`std::map<std::string, Value> vectors_` and have byte-for-byte identical
member bodies.  A `std::map` keyed by `std::string` is modelled as an
association list strictly sorted by the lexicographic order on keys;
`m[name] = value` is `mapInsert`.  Iterating the `std::map` visits entries
in ascending key order, which is exactly the order of the model list. -/

/-- `std::less<std::string>`: lexicographic comparison, a strict prefix
comparing less.  (UTF-8 byte order and code-point order agree.) -/
def strLt : List Char → List Char → Bool
  | [], [] => false
  | [], _ :: _ => true
  | _ :: _, [] => false
  | c1 :: r1, c2 :: r2 =>
    if c1.toNat < c2.toNat then true
    else if c2.toNat < c1.toNat then false
    else strLt r1 r2

def stringLt (a b : String) : Bool := strLt a.data b.data

/-- `std::map` insertion/assignment `m[k] = v`: the map is kept strictly
sorted by `std::less`; an equivalent key (neither side less) has its mapped
value replaced. -/
def mapInsert (k : String) (v : α) : List (String × α) → List (String × α)
  | [] => [(k, v)]
  | (k2, v2) :: rest =>
    if stringLt k k2 then (k, v) :: (k2, v2) :: rest
    else if stringLt k2 k then (k2, v2) :: mapInsert k v rest
    else (k, v) :: rest

structure Element where
  scalars : List (String × Value)
  vectors : List (String × Value)
deriving DecidableEq, Repr

/-- The default-constructed element: both maps empty. -/
def Element.empty : Element := ⟨[], []⟩

/-- `scalars_[name] = value;` — the body shared by `set(name, int64_t)`,
`set(name, double)`, `set(name, const std::string&)` and `set_null(name)`. -/
def Element.setValue (e : Element) (name : String) (v : Value) : Element :=
  { e with scalars := mapInsert name v e.scalars }

/-- `vectors_[name] = std::move(values);` — the body shared by the three
`set_vector` overloads. -/
def Element.setVectorValue (e : Element) (name : String) (v : Value) : Element :=
  { e with vectors := mapInsert name v e.vectors }

def Element.set_int (e : Element) (name : String) (value : Int) : Element :=
  e.setValue name (Value.vint value)

def Element.set_real (e : Element) (name : String) (value : F64) : Element :=
  e.setValue name (Value.vreal value)

def Element.set_string (e : Element) (name : String) (value : String) : Element :=
  e.setValue name (Value.vtext value)

def Element.set_null (e : Element) (name : String) : Element :=
  e.setValue name Value.vnull

def Element.set_vector_int (e : Element) (name : String) (values : List Int) : Element :=
  e.setVectorValue name (Value.vintVec values)

def Element.set_vector_real (e : Element) (name : String) (values : List F64) : Element :=
  e.setVectorValue name (Value.vrealVec values)

def Element.set_vector_string (e : Element) (name : String) (values : List String) : Element :=
  e.setVectorValue name (Value.vtextVec values)

def Element.has_scalars (e : Element) : Bool := !e.scalars.isEmpty

def Element.has_vectors (e : Element) : Bool := !e.vectors.isEmpty

/-- `clear()` empties both maps. -/
def Element.clear (_e : Element) : Element := ⟨[], []⟩

/-- One call against an `Element` / `ElementBuilder` (the two classes expose
the same mutating interface). -/
inductive ElemOp where
  | setInt (name : String) (value : Int)
  | setReal (name : String) (value : F64)
  | setString (name : String) (value : String)
  | setNull (name : String)
  | setVectorInt (name : String) (values : List Int)
  | setVectorReal (name : String) (values : List F64)
  | setVectorString (name : String) (values : List String)
  | clear
deriving DecidableEq, Repr

def Element.apply (e : Element) : ElemOp → Element
  | ElemOp.setInt name v => e.set_int name v
  | ElemOp.setReal name v => e.set_real name v
  | ElemOp.setString name v => e.set_string name v
  | ElemOp.setNull name => e.set_null name
  | ElemOp.setVectorInt name vs => e.set_vector_int name vs
  | ElemOp.setVectorReal name vs => e.set_vector_real name vs
  | ElemOp.setVectorString name vs => e.set_vector_string name vs
  | ElemOp.clear => e.clear

/-- The element reached from a fresh builder by a sequence of calls. -/
def Element.applyOps (ops : List ElemOp) : Element :=
  ops.foldl Element.apply Element.empty

/-- `psr::ElementBuilder` (element_builder.cpp) duplicates `psr::Element`
member for member; its state is modelled by the same structure.  The
operations below re-state the builder names so that the two evolutions of
the element model named by the source are both present. -/
def ElementBuilder := Element

def ElementBuilder.applyOps (ops : List ElemOp) : ElementBuilder :=
  Element.applyOps ops

/-! Order facts about the string comparison, and the sortedness invariant of
the `std::map` model. -/

theorem strLt_irrefl (a : List Char) : strLt a a = false := by
  induction a with
  | nil => rfl
  | cons c r ih => rw [strLt, if_neg (Nat.lt_irrefl _), if_neg (Nat.lt_irrefl _)]; exact ih

theorem strLt_trans {a b c : List Char} (hab : strLt a b = true)
    (hbc : strLt b c = true) : strLt a c = true := by
  induction a generalizing b c with
  | nil =>
    cases b with
    | nil => exact absurd hab (by rw [strLt]; simp)
    | cons cb rb =>
      cases c with
      | nil => exact absurd hbc (by rw [strLt]; simp)
      | cons cc rc => rw [strLt]
  | cons ca ra ih =>
    cases b with
    | nil => exact absurd hab (by rw [strLt]; simp)
    | cons cb rb =>
      cases c with
      | nil => exact absurd hbc (by rw [strLt]; simp)
      | cons cc rc =>
        rw [strLt] at hab hbc ⊢
        by_cases h1 : ca.toNat < cb.toNat
        · by_cases h2 : cb.toNat < cc.toNat
          · rw [if_pos (Nat.lt_trans h1 h2)]
          · rw [if_neg h2] at hbc
            by_cases h3 : cc.toNat < cb.toNat
            · rw [if_pos h3] at hbc
              exact absurd hbc (by simp)
            · have hcb : cb.toNat = cc.toNat := Nat.le_antisymm
                (Nat.le_of_not_lt h3) (Nat.le_of_not_lt h2)
              rw [if_pos (hcb ▸ h1)]
        · rw [if_neg h1] at hab
          by_cases h4 : cb.toNat < ca.toNat
          · rw [if_pos h4] at hab
            exact absurd hab (by simp)
          · have hab2 : strLt ra rb = true := by rwa [if_neg h4] at hab
            have hac : ca.toNat = cb.toNat := Nat.le_antisymm
              (Nat.le_of_not_lt h4) (Nat.le_of_not_lt h1)
            by_cases h2 : cb.toNat < cc.toNat
            · rw [if_pos (hac ▸ h2)]
            · rw [if_neg h2] at hbc
              by_cases h3 : cc.toNat < cb.toNat
              · rw [if_pos h3] at hbc
                exact absurd hbc (by simp)
              · have hbc2 : strLt rb rc = true := by rwa [if_neg h3] at hbc
                rw [if_neg (hac ▸ h2), if_neg (hac ▸ h3)]
                exact ih hab2 hbc2

theorem strLt_conn {a b : List Char} (hab : strLt a b = false)
    (hba : strLt b a = false) : a = b := by
  induction a generalizing b with
  | nil =>
    cases b with
    | nil => rfl
    | cons cb rb => exact absurd hab (by rw [strLt]; simp)
  | cons ca ra ih =>
    cases b with
    | nil => exact absurd hba (by rw [strLt]; simp)
    | cons cb rb =>
      rw [strLt] at hab hba
      by_cases h1 : ca.toNat < cb.toNat
      · rw [if_pos h1] at hab
        exact absurd hab (by simp)
      · by_cases h2 : cb.toNat < ca.toNat
        · rw [if_pos h2] at hba
          exact absurd hba (by simp)
        · have hr : ra = rb := ih (by rwa [if_neg h1, if_neg h2] at hab)
            (by rwa [if_neg h2, if_neg h1] at hba)
          have hc : ca = cb := by
            have hn : ca.toNat = cb.toNat :=
              Nat.le_antisymm (Nat.le_of_not_lt h2) (Nat.le_of_not_lt h1)
            have hv : ca.val = cb.val := by
              unfold Char.toNat at hn
              exact UInt32.toNat.inj hn
            exact Char.eq_of_val_eq hv
          rw [hc, hr]

theorem stringLt_irrefl (a : String) : stringLt a a = false :=
  strLt_irrefl a.data

theorem stringLt_trans {a b c : String} (hab : stringLt a b = true)
    (hbc : stringLt b c = true) : stringLt a c = true :=
  strLt_trans hab hbc

theorem stringLt_conn {a b : String} (hab : stringLt a b = false)
    (hba : stringLt b a = false) : a = b := by
  cases a with
  | mk da =>
    cases b with
    | mk db => exact congrArg String.mk (strLt_conn hab hba)

theorem stringLt_ne {a b : String} (h : stringLt a b = true) : a ≠ b := by
  intro he
  rw [he, stringLt_irrefl] at h
  exact Bool.false_ne_true h

def keysSorted (l : List (String × α)) : Prop :=
  l.Pairwise (fun p q => stringLt p.1 q.1 = true)

theorem mem_mapInsert {α : Type} {k : String} {v : α} {l : List (String × α)}
    {p : String × α} (hp : p ∈ mapInsert k v l) : p.1 = k ∨ p ∈ l := by
  induction l with
  | nil =>
    rw [mapInsert] at hp
    rcases List.mem_singleton.mp hp with rfl
    exact Or.inl rfl
  | cons hd tl ih =>
    rcases hd with ⟨k2, v2⟩
    rw [mapInsert] at hp
    by_cases h1 : stringLt k k2 = true
    · rw [if_pos h1] at hp
      rcases List.mem_cons.mp hp with rfl | hmem
      · exact Or.inl rfl
      · exact Or.inr hmem
    · rw [if_neg h1] at hp
      by_cases h2 : stringLt k2 k = true
      · rw [if_pos h2] at hp
        rcases List.mem_cons.mp hp with rfl | hmem
        · exact Or.inr (List.mem_cons_self _ _)
        · rcases ih hmem with hq | hq
          · exact Or.inl hq
          · exact Or.inr (List.mem_cons_of_mem _ hq)
      · rw [if_neg h2] at hp
        rcases List.mem_cons.mp hp with rfl | hmem
        · exact Or.inl rfl
        · exact Or.inr (List.mem_cons_of_mem _ hmem)

theorem mapInsert_pairwise {α : Type} {k : String} {v : α} {l : List (String × α)}
    (h : keysSorted l) : keysSorted (mapInsert k v l) := by
  induction l with
  | nil => simp [mapInsert, keysSorted]
  | cons hd tl ih =>
    rcases hd with ⟨k2, v2⟩
    rw [keysSorted, List.pairwise_cons] at h
    by_cases h1 : stringLt k k2 = true
    · rw [keysSorted, mapInsert, if_pos h1]
      refine List.pairwise_cons.mpr ⟨?_, List.pairwise_cons.mpr ⟨h.1, h.2⟩⟩
      intro p hp
      rcases List.mem_cons.mp hp with rfl | hmem
      · exact h1
      · exact stringLt_trans h1 (h.1 p hmem)
    · by_cases h2 : stringLt k2 k = true
      · rw [keysSorted, mapInsert, if_neg h1, if_pos h2]
        refine List.pairwise_cons.mpr ⟨?_, ih h.2⟩
        intro p hp
        rcases mem_mapInsert hp with hp1 | hp1
        · rw [hp1]
          exact h2
        · exact h.1 p hp1
      · rw [keysSorted, mapInsert, if_neg h1, if_neg h2]
        have hk : k = k2 :=
          stringLt_conn (Bool.eq_false_iff.mpr h1) (Bool.eq_false_iff.mpr h2)
        refine List.pairwise_cons.mpr ⟨?_, h.2⟩
        intro p hp
        rw [hk]
        exact h.1 p hp

theorem filter_keys_eq_nil {α : Type} {k : String} {l : List (String × α)}
    (h : ∀ p ∈ l, stringLt k p.1 = true) : l.filter (fun p => p.1 == k) = [] := by
  induction l with
  | nil => rfl
  | cons hd tl ih =>
    have hhd : (hd.1 == k) = false := by
      simp only [beq_eq_false_iff_ne, ne_eq]
      intro he
      exact stringLt_ne (h hd (List.mem_cons_self _ _)) he.symm
    rw [List.filter_cons, hhd]
    simp only [Bool.false_eq_true, if_false]
    exact ih (fun p hp => h p (List.mem_cons_of_mem _ hp))

theorem mapInsert_filter_eq {α : Type} {k : String} {v : α} {l : List (String × α)}
    (h : keysSorted l) :
    (mapInsert k v l).filter (fun p => p.1 == k) = [(k, v)] := by
  induction l with
  | nil => simp [mapInsert]
  | cons hd tl ih =>
    rcases hd with ⟨k2, v2⟩
    rw [keysSorted, List.pairwise_cons] at h
    rw [mapInsert]
    by_cases h1 : stringLt k k2 = true
    · rw [if_pos h1, List.filter_cons]
      have hrest : List.filter (fun p => p.1 == k) ((k2, v2) :: tl) = [] := by
        refine filter_keys_eq_nil ?_
        intro p hp
        rcases List.mem_cons.mp hp with rfl | hmem
        · exact h1
        · exact stringLt_trans h1 (h.1 p hmem)
      simp only [beq_self_eq_true, if_true, hrest]
    · rw [if_neg h1]
      by_cases h2 : stringLt k2 k = true
      · rw [if_pos h2, List.filter_cons]
        have hk2 : ((k2, v2).1 == k) = false := by
          simp only [beq_eq_false_iff_ne, ne_eq]
          exact fun he => stringLt_ne h2 he
        rw [hk2]
        simp only [Bool.false_eq_true, if_false]
        exact ih h.2
      · rw [if_neg h2, List.filter_cons]
        have hk : k = k2 :=
          stringLt_conn (Bool.eq_false_iff.mpr h1) (Bool.eq_false_iff.mpr h2)
        have hrest : List.filter (fun p => p.1 == k) tl = [] := by
          refine filter_keys_eq_nil ?_
          intro p hp
          rw [hk]
          exact h.1 p hp
        simp only [beq_self_eq_true, if_true, hrest]

theorem Element.apply_sorted {e : Element} (op : ElemOp)
    (h : keysSorted e.scalars ∧ keysSorted e.vectors) :
    keysSorted (e.apply op).scalars ∧ keysSorted (e.apply op).vectors := by
  cases op <;>
    simp only [Element.apply, Element.set_int, Element.set_real, Element.set_string,
      Element.set_null, Element.set_vector_int, Element.set_vector_real,
      Element.set_vector_string, Element.clear, Element.setValue, Element.setVectorValue] <;>
    exact ⟨by first
            | exact mapInsert_pairwise h.1
            | exact h.1
            | simp [keysSorted],
           by first
            | exact mapInsert_pairwise h.2
            | exact h.2
            | simp [keysSorted]⟩

theorem Element.foldl_sorted {e : Element} (ops : List ElemOp)
    (h : keysSorted e.scalars ∧ keysSorted e.vectors) :
    keysSorted (ops.foldl Element.apply e).scalars ∧
      keysSorted (ops.foldl Element.apply e).vectors := by
  induction ops generalizing e with
  | nil => simpa using h
  | cons op rest ih =>
    rw [List.foldl_cons]
    exact ih (Element.apply_sorted op h)

theorem Element.applyOps_sorted (ops : List ElemOp) :
    keysSorted (Element.applyOps ops).scalars ∧
      keysSorted (Element.applyOps ops).vectors := by
  rw [Element.applyOps]
  refine Element.foldl_sorted ops ?_
  exact ⟨by simp [Element.empty, keysSorted], by simp [Element.empty, keysSorted]⟩

/-! ## psr::Transaction (src/transaction.cpp)

The guard keeps two flags, `committed_` and `rolled_back_`, both
default-initialised to `false`.  `commit()` throws if either flag is set and
otherwise sets `committed_`; `rollback()` throws if `committed_` is set, is a
no-op if `rolled_back_` is already set, and otherwise sets `rolled_back_`;
the destructor calls `rollback()` (swallowing exceptions) when neither flag
is set.  A throwing call leaves the flags unchanged. -/

structure Transaction where
  committed : Bool
  rolled_back : Bool
deriving DecidableEq, Repr

inductive TxError where
  | alreadyCommitted
  | alreadyRolledBack
  | cannotRollbackCommitted
deriving DecidableEq, Repr

/-- The state right after `Transaction::Transaction`. -/
def Transaction.fresh : Transaction := ⟨false, false⟩

def Transaction.commit (t : Transaction) : Except TxError Transaction :=
  if t.committed then Except.error TxError.alreadyCommitted
  else if t.rolled_back then Except.error TxError.alreadyRolledBack
  else Except.ok { t with committed := true }

def Transaction.rollback (t : Transaction) : Except TxError Transaction :=
  if t.committed then Except.error TxError.cannotRollbackCommitted
  else if t.rolled_back then Except.ok t        -- already rolled back, no-op
  else Except.ok { t with rolled_back := true }

/-- `~Transaction`: rolls back when neither committed nor rolled back,
swallowing any exception (the destructor must not throw). -/
def Transaction.destroy (t : Transaction) : Transaction :=
  if ¬t.committed ∧ ¬t.rolled_back then
    match t.rollback with
    | Except.ok t2 => t2
    | Except.error _ => t
  else t

def Transaction.is_active (t : Transaction) : Bool := !t.committed && !t.rolled_back

inductive TxEvent where
  | commit
  | rollback
deriving DecidableEq, Repr

/-- One method call; a call that throws leaves the guard's state unchanged. -/
def Transaction.step (t : Transaction) : TxEvent → Transaction
  | TxEvent.commit =>
      match t.commit with
      | Except.ok t2 => t2
      | Except.error _ => t
  | TxEvent.rollback =>
      match t.rollback with
      | Except.ok t2 => t2
      | Except.error _ => t

/-- The guard state after a sequence of commit/rollback calls on a fresh
transaction. -/
def Transaction.runEvents (evs : List TxEvent) : Transaction :=
  evs.foldl Transaction.step Transaction.fresh

theorem Transaction.step_of_resolved {t : Transaction}
    (h : t.committed = true ∨ t.rolled_back = true) (e : TxEvent) :
    t.step e = t := by
  cases e <;> rcases h with h | h <;>
    simp [Transaction.step, Transaction.commit, Transaction.rollback, h] <;>
    by_cases hc : t.committed <;> simp [hc]

theorem Transaction.runEvents_cons (e : TxEvent) (rest : List TxEvent) :
    Transaction.runEvents (e :: rest) = Transaction.runEvents [e] := by
  have h1 : Transaction.runEvents [e] = Transaction.fresh.step e := rfl
  have hres : (Transaction.fresh.step e).committed = true ∨
      (Transaction.fresh.step e).rolled_back = true := by
    cases e <;> simp [Transaction.step, Transaction.commit, Transaction.rollback,
      Transaction.fresh]
  rw [Transaction.runEvents, List.foldl_cons]
  rw [h1]
  generalize hs : Transaction.fresh.step e = t at hres ⊢
  induction rest with
  | nil => rfl
  | cons e2 rest2 ih =>
    rw [List.foldl_cons, Transaction.step_of_resolved hres]
    exact ih

/-! ## psr::Migrations (migrations.cpp, migration.cpp) -/

/-- One entry yielded by `std::filesystem::directory_iterator`. -/
structure DirEntry where
  name : String
  path : String
  is_directory : Bool
deriving DecidableEq, Repr

/-- `psr::Migration`: a version number paired with the directory path
(migration.cpp stores exactly these two fields). -/
structure Migration where
  version : Int
  path : String
deriving DecidableEq, Repr

/-- `std::stoll(dirname, &pos)` on the digits-and-sign grammar of `strtoll`:
optional leading whitespace, an optional `+`/`-` sign, then at least one
decimal digit (consumed maximally).  Returns the parsed value and the index
one past the last digit consumed, or `none` when no digit is found
(`std::invalid_argument`) or the value overflows a signed 64-bit integer
(`std::out_of_range`); the constructor catches both exceptions. -/
def stoll (s : List Char) : Option (Int × Nat) :=
  let ws := s.takeWhile (fun c => c = ' ' ∨ c = '\t' ∨ c = '\n' ∨ c = '\x0b' ∨
    c = '\x0c' ∨ c = '\r')
  let afterWs := s.drop ws.length
  let signLen : Nat := match afterWs with
    | c :: _ => if c = '+' ∨ c = '-' then 1 else 0
    | [] => 0
  let negative : Bool := match afterWs with
    | c :: _ => c = '-'
    | [] => false
  let digits := (afterWs.drop signLen).takeWhile Char.isDigit
  if digits.isEmpty then none
  else
    let magnitude : Nat := digits.foldl (fun acc c => acc * 10 + (c.toNat - 48)) 0
    let value : Int := if negative then -(magnitude : Int) else (magnitude : Int)
    if value < -(2 ^ 63) ∨ (2 ^ 63 - 1 : Int) < value then none
    else some (value, ws.length + signLen + digits.length)

/-- The acceptance test applied to a successful `stoll` result in the loop of
`Migrations::Migrations(path)`: `pos == dirname.size() && migration_version > 0`. -/
def checkVersion (len : Nat) (path : String) (vp : Int × Nat) : Option Migration :=
  if vp.2 = len ∧ 0 < vp.1 then some ⟨vp.1, path⟩ else none

/-- The body of the loop in `Migrations::Migrations(path)`: keep a directory
entry iff it is a directory and `stoll` of its filename succeeds (a throwing
`stoll` is caught and the entry skipped), consumes the entire name and
yields a value greater than zero. -/
def migrationOfEntry (e : DirEntry) : Option Migration :=
  if e.is_directory then
    (stoll e.name.toList).bind (checkVersion e.name.toList.length e.path)
  else none

/-- Modelled from the spec: `std::sort` over `std::vector<Migration>` uses
`Migration::operator<`, whose definition is not among the provided sources
(only the call site in migrations.cpp is); the specification says versions
are applied "in ascending order", so migrations compare by version. -/
def migrationLE (a b : Migration) : Bool := a.version ≤ b.version

/-- `Migrations::Migrations(const std::string& path)`: filter the directory
entries through `migrationOfEntry`, then sort ascending. -/
def Migrations (entries : List DirEntry) : List Migration :=
  (entries.filterMap migrationOfEntry).mergeSort migrationLE

theorem Transaction.runEvents_nil : Transaction.runEvents [] = Transaction.fresh := rfl

theorem Transaction.runEvents_commit (rest : List TxEvent) :
    Transaction.runEvents (TxEvent.commit :: rest) = ⟨true, false⟩ := by
  rw [Transaction.runEvents_cons]; rfl

theorem Transaction.runEvents_rollback (rest : List TxEvent) :
    Transaction.runEvents (TxEvent.rollback :: rest) = ⟨false, true⟩ := by
  rw [Transaction.runEvents_cons]; rfl

theorem migrationOfEntry_eq_some {e : DirEntry} {m : Migration} :
    migrationOfEntry e = some m ↔
      e.is_directory = true ∧ 0 < m.version ∧ m.path = e.path ∧
        stoll e.name.toList = some (m.version, e.name.toList.length) := by
  constructor
  · intro h
    by_cases hd : e.is_directory = true
    · rcases heq : stoll e.name.toList with _ | ⟨v, pos⟩
      · rw [migrationOfEntry, if_pos hd, heq, Option.none_bind] at h
        exact absurd h (by simp)
      · rw [migrationOfEntry, if_pos hd, heq, Option.some_bind, checkVersion] at h
        by_cases hcond : pos = e.name.toList.length ∧ 0 < v
        · rw [if_pos hcond] at h
          cases h
          refine ⟨hd, hcond.2, rfl, ?_⟩
          rw [← hcond.1]
        · rw [if_neg hcond] at h
          exact absurd h (by simp)
    · rw [migrationOfEntry, if_neg hd] at h
      exact absurd h (by simp)
  · rintro ⟨hd, hv, hpath, hstoll⟩
    rw [migrationOfEntry, if_pos hd, hstoll, Option.some_bind, checkVersion]
    rw [if_pos ⟨rfl, hv⟩, ← hpath]

theorem migrationLE_trans (a b c : Migration)
    (hab : migrationLE a b = true) (hbc : migrationLE b c = true) :
    migrationLE a c = true := by
  rw [migrationLE, decide_eq_true_eq] at *
  exact le_trans hab hbc

theorem migrationLE_total (a b : Migration) :
    (migrationLE a b || migrationLE b a) = true := by
  rw [migrationLE, migrationLE]
  rcases Int.le_total a.version b.version with h | h <;> simp [h]

/-! ## split_sql_statements (src/c_api.cpp)

The C++ walks the text once with `in_string` / `string_char` state, appending
to `current` and flushing trimmed non-empty statements at each `;` seen
outside a literal; a quote toggles the state only when the previous input
character is not a backslash. -/

def squote : Char := Char.ofNat 39
def dquote : Char := Char.ofNat 34
def bslash : Char := Char.ofNat 92

/-- The whitespace set `" \t\n\r"` of the trimming in `split_sql_statements`. -/
def isTrimWs (c : Char) : Bool :=
  c = ' ' ∨ c = Char.ofNat 9 ∨ c = Char.ofNat 10 ∨ c = Char.ofNat 13

/-- `find_first_not_of(" \t\n\r")` / `find_last_not_of(" \t\n\r")` trimming. -/
def trim (s : List Char) : List Char :=
  ((s.dropWhile isTrimWs).reverse.dropWhile isTrimWs).reverse

def splitLoop : List Char → Option Char → Bool → Char → List Char →
    List (List Char) → List (List Char)
  | [], _, _, _, current, acc =>
      -- handle last statement if no trailing semicolon
      if (trim current).isEmpty then acc else acc ++ [trim current]
  | c :: rest, prev, in_string, string_char, current, acc =>
      if (c = squote ∨ c = dquote) ∧ prev ≠ some bslash then
        if ¬in_string then
          splitLoop rest (some c) true c (current ++ [c]) acc
        else if c = string_char then
          splitLoop rest (some c) false string_char (current ++ [c]) acc
        else
          splitLoop rest (some c) in_string string_char (current ++ [c]) acc
      else if c = ';' ∧ ¬in_string then
        splitLoop rest (some c) in_string string_char []
          (if (trim current).isEmpty then acc else acc ++ [trim current])
      else
        splitLoop rest (some c) in_string string_char (current ++ [c]) acc

/-- `split_sql_statements(sql)` (the `i == 0` case of the escape test is the
`prev = none` start state; `string_char` starts as `'\0'`). -/
def split_sql_statements (sql : List Char) : List (List Char) :=
  splitLoop sql none false (Char.ofNat 0) [] []

/-! Specification-side reformulation of the split: a literal-state machine
determines which `;` end statements, the text is cut at exactly those
semicolons, and the trimmed non-empty fragments are kept in input order. -/

/-- The in-literal state after reading `c` with previous character `prev`:
outside any literal the next unescaped quote opens one; inside a literal the
matching unescaped quote closes it; a quote preceded by a backslash never
toggles. -/
def qtoggleQuote : Option Char → Char → Option Char
  | none, c => some c
  | some q, c => if c = q then none else some q

def qtoggle (st : Option Char) (prev : Option Char) (c : Char) : Option Char :=
  if (c = squote ∨ c = dquote) ∧ prev ≠ some bslash then qtoggleQuote st c
  else st

/-- The fragments of the input cut at every `;` lying outside a quoted
literal (the final fragment is the text after the last such `;`). -/
def rawFragments : List Char → Option Char → Option Char → List Char →
    List (List Char)
  | [], _, _, cur => [cur]
  | c :: rest, st, prev, cur =>
      if c = ';' ∧ st = none then
        cur :: rawFragments rest (qtoggle st prev c) (some c) []
      else
        rawFragments rest (qtoggle st prev c) (some c) (cur ++ [c])

/-- The split as the specification states it: cut at unquoted semicolons,
trim each fragment, keep the non-empty ones in input order. -/
def specSplit (sql : List Char) : List (List Char) :=
  ((rawFragments sql none none []).map trim).filter (fun s => !s.isEmpty)

theorem splitLoop_spec (l : List Char) :
    ∀ (prev : Option Char) (in_string : Bool) (string_char : Char)
      (cur : List Char) (acc : List (List Char)) (st : Option Char),
      (st = none → in_string = false) →
      (∀ q, st = some q → in_string = true ∧ string_char = q) →
      splitLoop l prev in_string string_char cur acc =
        acc ++ ((rawFragments l st prev cur).map trim).filter (fun s => !s.isEmpty) := by
  induction l with
  | nil =>
    intro prev in_string string_char cur acc st h1 h2
    rw [splitLoop, rawFragments]
    by_cases he : (trim cur).isEmpty
    · rw [if_pos he]
      simp [he]
    · rw [if_neg he]
      simp [he]
  | cons c rest ih =>
    intro prev in_string string_char cur acc st h1 h2
    rw [splitLoop, rawFragments]
    by_cases hq : (c = squote ∨ c = dquote) ∧ prev ≠ some bslash
    · rw [if_pos hq]
      have hnotsemi : c ≠ ';' := by
        rcases hq.1 with h | h <;> rw [h] <;> decide
      cases st with
      | none =>
        have hin : in_string = false := h1 rfl
        subst hin
        rw [if_pos (show ¬((false : Bool) = true) by decide)]
        rw [if_neg (show ¬(c = ';' ∧ (none : Option Char) = none) from
          fun hc => hnotsemi hc.1)]
        have hqt : qtoggle none prev c = some c := by
          rw [qtoggle, if_pos hq, qtoggleQuote]
        rw [hqt]
        exact ih (some c) true c (cur ++ [c]) acc (some c)
          (fun h => Option.noConfusion h)
          (fun q2 hq2 => ⟨rfl, Option.some.inj hq2⟩)
      | some q =>
        obtain ⟨hin, hsc⟩ := h2 q rfl
        subst hin
        subst hsc
        rw [if_neg (show ¬¬((true : Bool) = true) by decide)]
        rw [if_neg (show ¬(c = ';' ∧ (some string_char : Option Char) = none) from
          fun hc => Option.noConfusion hc.2)]
        by_cases hcq : c = string_char
        · rw [if_pos hcq]
          have hqt : qtoggle (some string_char) prev c = none := by
            rw [qtoggle, if_pos hq, qtoggleQuote, if_pos hcq]
          rw [hqt]
          exact ih (some c) false string_char (cur ++ [c]) acc none
            (fun _ => rfl) (fun q2 hq2 => Option.noConfusion hq2)
        · rw [if_neg hcq]
          have hqt : qtoggle (some string_char) prev c = some string_char := by
            rw [qtoggle, if_pos hq, qtoggleQuote, if_neg hcq]
          rw [hqt]
          exact ih (some c) true string_char (cur ++ [c]) acc (some string_char)
            (fun h => Option.noConfusion h)
            (fun q2 hq2 => ⟨rfl, Option.some.inj hq2⟩)
    · rw [if_neg hq]
      have hqt : qtoggle st prev c = st := by rw [qtoggle, if_neg hq]
      by_cases hsemi : c = ';' ∧ st = none
      · have hin : in_string = false := h1 hsemi.2
        subst hin
        rw [if_pos (show c = ';' ∧ ¬((false : Bool) = true) from ⟨hsemi.1, by decide⟩)]
        rw [if_pos hsemi, hqt, hsemi.2]
        rw [ih (some c) false string_char [] _ none (fun _ => rfl)
          (fun q2 hq2 => Option.noConfusion hq2)]
        by_cases he : (trim cur).isEmpty
        · rw [if_pos he]
          simp [he]
        · rw [if_neg he]
          simp [he]
      · have hlhs : ¬(c = ';' ∧ ¬(in_string = true)) := by
          rintro ⟨hc, hnin⟩
          by_cases hnone : st = none
          · exact hsemi ⟨hc, hnone⟩
          · rcases Option.ne_none_iff_exists'.mp hnone with ⟨q, hq2⟩
            exact hnin (h2 q hq2).1
        rw [if_neg hlhs, if_neg hsemi, hqt]
        exact ih (some c) in_string string_char (cur ++ [c]) acc st h1 h2

/-! ## The schema validators of src/c_api.cpp

`validate_schema` runs four regex-guided checks over the raw schema text:
`validate_foreign_key_actions`, `validate_vector_tables`,
`validate_no_duplicated_attributes` and `validate_collection_tables`.
The `std::regex` patterns used there are deterministic (every alternation is
discriminated by its first characters and every quantifier's extent is forced
by the following token), so each is modelled by a positional
recursive-descent matcher over the character list; `std::sregex_iterator`
semantics (leftmost match, resume after the match end) is modelled by the
scan functions. -/

/-- `std::toupper` on ASCII (the case-insensitive regexes compare through it). -/
def chUp (c : Char) : Char :=
  if 97 ≤ c.toNat ∧ c.toNat ≤ 122 then Char.ofNat (c.toNat - 32) else c

/-- `std::tolower` on ASCII (`to_lower` in c_api.cpp). -/
def chLow (c : Char) : Char :=
  if 65 ≤ c.toNat ∧ c.toNat ≤ 90 then Char.ofNat (c.toNat + 32) else c

/-- The regex class `\s` (and C `isspace`): space, `\t`, `\n`, `\v`, `\f`, `\r`. -/
def isWsC (c : Char) : Bool :=
  c = ' ' ∨ c = Char.ofNat 9 ∨ c = Char.ofNat 10 ∨ c = Char.ofNat 11 ∨
    c = Char.ofNat 12 ∨ c = Char.ofNat 13

/-- The regex class `\w`: ASCII letters, digits and underscore. -/
def isWordC (c : Char) : Bool :=
  (65 ≤ c.toNat ∧ c.toNat ≤ 90) ∨ (97 ≤ c.toNat ∧ c.toNat ≤ 122) ∨
    (48 ≤ c.toNat ∧ c.toNat ≤ 57) ∨ c.toNat = 95

/-- Case-insensitive literal at position `i` (pattern given uppercase);
returns the position after the literal. -/
def pLitAt (pat : List Char) (s : List Char) (i : Nat) : Option Nat :=
  if pat.length ≤ s.length - i ∧ ((s.drop i).take pat.length).map chUp = pat then
    some (i + pat.length)
  else none

/-- `\s+` at position `i` (greedy; the following token is never whitespace). -/
def pWs1At (s : List Char) (i : Nat) : Option Nat :=
  if 1 ≤ ((s.drop i).takeWhile isWsC).length then
    some (i + ((s.drop i).takeWhile isWsC).length)
  else none

/-- `\s*` at position `i`. -/
def pWs0At (s : List Char) (i : Nat) : Nat :=
  i + ((s.drop i).takeWhile isWsC).length

/-- `\w+` at position `i` (greedy; never followed by a word-class token). -/
def pWord1At (s : List Char) (i : Nat) : Option Nat :=
  if 1 ≤ ((s.drop i).takeWhile isWordC).length then
    some (i + ((s.drop i).takeWhile isWordC).length)
  else none

/-- `[^)]+\)` at position `i`: at least one non-`)` character up to the next
`)` (which must exist), consuming it too. -/
def pGroupAt (s : List Char) (i : Nat) : Option Nat :=
  if 1 ≤ ((s.drop i).takeWhile (fun c => c ≠ ')')).length ∧
      i + ((s.drop i).takeWhile (fun c => c ≠ ')')).length < s.length then
    some (i + ((s.drop i).takeWhile (fun c => c ≠ ')')).length + 1)
  else none

/-- `SET\s+NULL`. -/
def pSetNullAt (s : List Char) (i : Nat) : Option Nat :=
  (pLitAt "SET".toList s i).bind fun j =>
    (pWs1At s j).bind fun j2 => pLitAt "NULL".toList s j2

/-- `SET\s+DEFAULT`. -/
def pSetDefaultAt (s : List Char) (i : Nat) : Option Nat :=
  (pLitAt "SET".toList s i).bind fun j =>
    (pWs1At s j).bind fun j2 => pLitAt "DEFAULT".toList s j2

/-- `NO\s+ACTION`. -/
def pNoActionAt (s : List Char) (i : Nat) : Option Nat :=
  (pLitAt "NO".toList s i).bind fun j =>
    (pWs1At s j).bind fun j2 => pLitAt "ACTION".toList s j2

/-- The FK-action alternation
`(CASCADE|SET\s+NULL|SET\s+DEFAULT|RESTRICT|NO\s+ACTION)`, tried in the
regex's order (the alternatives are prefix-discriminated, so at most one can
match at a position). -/
def pActionAt (s : List Char) (i : Nat) : Option Nat :=
  pLitAt "CASCADE".toList s i <|> pSetNullAt s i <|> pSetDefaultAt s i <|>
    pLitAt "RESTRICT".toList s i <|> pNoActionAt s i

/-- `FOREIGN\s+KEY\s*\([^)]+\)\s+` at position `i`. -/
def pFkHead (s : List Char) (i : Nat) : Option Nat := do
  let j ← pLitAt "FOREIGN".toList s i
  let j ← pWs1At s j
  let j ← pLitAt "KEY".toList s j
  let j ← pLitAt "(".toList s (pWs0At s j)
  let j ← pGroupAt s j
  pWs1At s j

/-- `REFERENCES\s+\w+\s*\(\s*\w+\s*\)\s+` at position `i`. -/
def pFkRefs (s : List Char) (i : Nat) : Option Nat := do
  let j ← pLitAt "REFERENCES".toList s i
  let j ← pWs1At s j
  let j ← pWord1At s j
  let j ← pLitAt "(".toList s (pWs0At s j)
  let j ← pWord1At s (pWs0At s j)
  let j ← pLitAt ")".toList s (pWs0At s j)
  pWs1At s j

/-- `ON\s+DELETE\s+` at position `i`. -/
def pFkDelKw (s : List Char) (i : Nat) : Option Nat := do
  let j ← pLitAt "ON".toList s i
  let j ← pWs1At s j
  let j ← pLitAt "DELETE".toList s j
  pWs1At s j

/-- `\s+ON\s+UPDATE\s+` at position `i`. -/
def pFkUpdKw (s : List Char) (i : Nat) : Option Nat := do
  let j ← pWs1At s i
  let j ← pLitAt "ON".toList s j
  let j ← pWs1At s j
  let j ← pLitAt "UPDATE".toList s j
  pWs1At s j

/-- One attempt of the `validate_foreign_key_actions` pattern
`FOREIGN\s+KEY\s*\([^)]+\)\s+REFERENCES\s+\w+\s*\(\s*\w+\s*\)\s+ON\s+DELETE\s+(…)\s+ON\s+UPDATE\s+(…)`
at position `i`; on success, returns the two captured action slices and the
position after the match. -/
def parseFKAt (s : List Char) (i : Nat) :
    Option (List Char × List Char × Nat) := do
  let j ← pFkHead s i
  let j ← pFkRefs s j
  let jd ← pFkDelKw s j
  let jd2 ← pActionAt s jd
  let ju ← pFkUpdKw s jd2
  let ju2 ← pActionAt s ju
  pure ((s.drop jd).take (jd2 - jd), (s.drop ju).take (ju2 - ju), ju2)

theorem pLitAt_eq {pat s : List Char} {i j : Nat} (h : pLitAt pat s i = some j) :
    j = i + pat.length := by
  rw [pLitAt] at h
  by_cases hc : pat.length ≤ s.length - i ∧ ((s.drop i).take pat.length).map chUp = pat
  · rw [if_pos hc] at h
    exact (Option.some.inj h).symm
  · rw [if_neg hc] at h
    exact Option.noConfusion h

theorem pWs1At_mono {s : List Char} {i j : Nat} (h : pWs1At s i = some j) : i ≤ j := by
  rw [pWs1At] at h
  by_cases hc : 1 ≤ ((s.drop i).takeWhile isWsC).length
  · rw [if_pos hc] at h
    rcases Option.some.inj h with rfl
    exact Nat.le_add_right _ _
  · rw [if_neg hc] at h
    exact Option.noConfusion h

theorem pWord1At_mono {s : List Char} {i j : Nat} (h : pWord1At s i = some j) : i ≤ j := by
  rw [pWord1At] at h
  by_cases hc : 1 ≤ ((s.drop i).takeWhile isWordC).length
  · rw [if_pos hc] at h
    rcases Option.some.inj h with rfl
    exact Nat.le_add_right _ _
  · rw [if_neg hc] at h
    exact Option.noConfusion h

theorem pGroupAt_mono {s : List Char} {i j : Nat} (h : pGroupAt s i = some j) : i ≤ j := by
  rw [pGroupAt] at h
  by_cases hc : 1 ≤ ((s.drop i).takeWhile (fun c => c ≠ ')')).length ∧
      i + ((s.drop i).takeWhile (fun c => c ≠ ')')).length < s.length
  · rw [if_pos hc] at h
    rcases Option.some.inj h with rfl
    omega
  · rw [if_neg hc] at h
    exact Option.noConfusion h

theorem pWs0At_mono (s : List Char) (i : Nat) : i ≤ pWs0At s i :=
  Nat.le_add_right _ _

theorem pActionAt_mono {s : List Char} {i j : Nat} (h : pActionAt s i = some j) :
    i ≤ j := by
  have hseq : ∀ {pat : List Char} {j2 : Nat},
      ((pLitAt pat s i).bind fun j3 =>
        (pWs1At s j3).bind fun j4 => pLitAt "NULL".toList s j4) = some j2 → i ≤ j2 ∨ True := by
    intro _ _ _
    exact Or.inr trivial
  rw [pActionAt] at h
  rcases (Option.orElse_eq_some _ _ _).mp h with h1 | ⟨-, h1⟩
  · rw [pLitAt_eq h1]
    exact Nat.le_add_right _ _
  rcases (Option.orElse_eq_some _ _ _).mp h1 with h2 | ⟨-, h2⟩
  · rcases Option.bind_eq_some.mp h2 with ⟨j1, ha, hb⟩
    rcases Option.bind_eq_some.mp hb with ⟨j2, hc, hd⟩
    have := pLitAt_eq ha
    have := pWs1At_mono hc
    have := pLitAt_eq hd
    omega
  rcases (Option.orElse_eq_some _ _ _).mp h2 with h3 | ⟨-, h3⟩
  · rcases Option.bind_eq_some.mp h3 with ⟨j1, ha, hb⟩
    rcases Option.bind_eq_some.mp hb with ⟨j2, hc, hd⟩
    have := pLitAt_eq ha
    have := pWs1At_mono hc
    have := pLitAt_eq hd
    omega
  rcases (Option.orElse_eq_some _ _ _).mp h3 with h4 | ⟨-, h4⟩
  · rw [pLitAt_eq h4]
    exact Nat.le_add_right _ _
  · rcases Option.bind_eq_some.mp h4 with ⟨j1, ha, hb⟩
    rcases Option.bind_eq_some.mp hb with ⟨j2, hc, hd⟩
    have := pLitAt_eq ha
    have := pWs1At_mono hc
    have := pLitAt_eq hd
    omega

theorem pFkHead_mono {s : List Char} {i j : Nat} (h : pFkHead s i = some j) :
    i < j := by
  rw [pFkHead] at h
  simp only [bind, Option.bind_eq_some] at h
  obtain ⟨j1, h1, j2, h2, j3, h3, j4, h4, j5, h5, h6⟩ := h
  have e1 := pLitAt_eq h1
  have e2 := pWs1At_mono h2
  have e3 := pLitAt_eq h3
  have e4 := pLitAt_eq h4
  have m4 := pWs0At_mono s j3
  have e5 := pGroupAt_mono h5
  have e6 := pWs1At_mono h6
  have hl1 : "FOREIGN".toList.length = 7 := rfl
  omega

theorem pFkRefs_mono {s : List Char} {i j : Nat} (h : pFkRefs s i = some j) :
    i ≤ j := by
  rw [pFkRefs] at h
  simp only [bind, Option.bind_eq_some] at h
  obtain ⟨j1, h1, j2, h2, j3, h3, j4, h4, j5, h5, j6, h6, h7⟩ := h
  have e1 := pLitAt_eq h1
  have e2 := pWs1At_mono h2
  have e3 := pWord1At_mono h3
  have e4 := pLitAt_eq h4
  have m4 := pWs0At_mono s j3
  have e5 := pWord1At_mono h5
  have m5 := pWs0At_mono s j4
  have e6 := pLitAt_eq h6
  have m6 := pWs0At_mono s j5
  have e7 := pWs1At_mono h7
  omega

theorem pFkDelKw_mono {s : List Char} {i j : Nat} (h : pFkDelKw s i = some j) :
    i ≤ j := by
  rw [pFkDelKw] at h
  simp only [bind, Option.bind_eq_some] at h
  obtain ⟨j1, h1, j2, h2, j3, h3, h4⟩ := h
  have e1 := pLitAt_eq h1
  have e2 := pWs1At_mono h2
  have e3 := pLitAt_eq h3
  have e4 := pWs1At_mono h4
  omega

theorem pFkUpdKw_mono {s : List Char} {i j : Nat} (h : pFkUpdKw s i = some j) :
    i ≤ j := by
  rw [pFkUpdKw] at h
  simp only [bind, Option.bind_eq_some] at h
  obtain ⟨j1, h1, j2, h2, j3, h3, j4, h4, h5⟩ := h
  have e1 := pWs1At_mono h1
  have e2 := pLitAt_eq h2
  have e3 := pWs1At_mono h3
  have e4 := pLitAt_eq h4
  have e5 := pWs1At_mono h5
  omega

theorem parseFKAt_mono {s : List Char} {i : Nat} {d u : List Char} {j : Nat}
    (h : parseFKAt s i = some (d, u, j)) : i < j := by
  rw [parseFKAt] at h
  simp only [bind, Option.bind_eq_some, pure, Option.some.injEq, Prod.mk.injEq] at h
  obtain ⟨j1, h1, j2, h2, jd, hd, jd2, hd2, ju, hu, ju2, hu2, hfin⟩ := h
  have e1 := pFkHead_mono h1
  have e2 := pFkRefs_mono h2
  have ed := pFkDelKw_mono hd
  have ed2 := pActionAt_mono hd2
  have eu := pFkUpdKw_mono hu
  have eu2 := pActionAt_mono hu2
  have hj : j = ju2 := hfin.2.2.symm
  omega

/-- `std::sregex_iterator` over the FK-action pattern: leftmost matches,
resuming after each match's end.  The fuel argument only bounds the number
of loop steps; `s.length + 1` is always enough because every step advances
the position by at least one character (`parseFKAt_mono`). -/
def scanFKFrom (s : List Char) : Nat → Nat → List (List Char × List Char)
  | 0, _ => []
  | fuel + 1, i =>
    if i < s.length then
      match parseFKAt s i with
      | some (d, u, j) => (d, u) :: scanFKFrom s fuel j
      | none => scanFKFrom s fuel (i + 1)
    else []

def scanFK (s : List Char) : List (List Char × List Char) :=
  scanFKFrom s (s.length + 1) 0

/-- The index of the last `)` in a list, if any (the backtracking target of
the greedy `([^;]+)\)` tail). -/
def lastParenIdx : List Char → Option Nat
  | [] => none
  | c :: cs =>
      match lastParenIdx cs with
      | some q => some (q + 1)
      | none => if c = ')' then some 0 else none

/-- `([^;]+)\)` at position `i`: the greedy `[^;]+` runs to the next `;` (or
the end) and backtracks to the last `)` inside that segment; the capture is
everything before that `)`, which must be non-empty. -/
def pDefAt (s : List Char) (i : Nat) : Option (List Char × Nat) :=
  (lastParenIdx ((s.drop i).takeWhile (fun c => c ≠ ';'))).bind fun q =>
    if 1 ≤ q then
      some (((s.drop i).takeWhile (fun c => c ≠ ';')).take q, i + q + 1)
    else none

/-- One attempt of the table pattern `CREATE\s+TABLE\s+(\w+)\s*\(([^;]+)\)`
(shared by `validate_vector_tables`, `validate_no_duplicated_attributes` and
`validate_collection_tables`) at position `i`; on success, returns the
captured table name, the captured table definition, and the position after
the match. -/
def parseCreateAt (s : List Char) (i : Nat) :
    Option (List Char × List Char × Nat) := do
  let j ← pLitAt "CREATE".toList s i
  let j ← pWs1At s j
  let j ← pLitAt "TABLE".toList s j
  let j2 ← pWs1At s j
  let j3 ← pWord1At s j2
  let j4 ← pLitAt "(".toList s (pWs0At s j3)
  let dj ← pDefAt s j4
  pure ((s.drop j2).take (j3 - j2), dj.1, dj.2)

theorem pDefAt_mono {s : List Char} {i : Nat} {dj : List Char × Nat}
    (h : pDefAt s i = some dj) : i < dj.2 := by
  rw [pDefAt] at h
  rcases Option.bind_eq_some.mp h with ⟨q, hq, hif⟩
  by_cases h1 : 1 ≤ q
  · rw [if_pos h1] at hif
    have h2 : i + q + 1 = dj.2 := congrArg Prod.snd (Option.some.inj hif)
    omega
  · rw [if_neg h1] at hif
    exact Option.noConfusion hif

theorem parseCreateAt_mono {s : List Char} {i : Nat} {n d : List Char} {j : Nat}
    (h : parseCreateAt s i = some (n, d, j)) : i < j := by
  rw [parseCreateAt] at h
  simp only [bind, Option.bind_eq_some, pure, Option.some.injEq, Prod.mk.injEq] at h
  obtain ⟨j1, h1, j2, h2, j3, h3, j4, h4, j5, h5, j6, h6, dj, hdj, hfin⟩ := h
  have e1 := pLitAt_eq h1
  have e2 := pWs1At_mono h2
  have e3 := pLitAt_eq h3
  have e4 := pWs1At_mono h4
  have e5 := pWord1At_mono h5
  have e6 := pLitAt_eq h6
  have m6 := pWs0At_mono s j5
  have e7 := pDefAt_mono hdj
  have hl1 : "CREATE".toList.length = 6 := rfl
  have hj : dj.2 = j := hfin.2.2
  omega

/-- `std::sregex_iterator` over the CREATE-TABLE pattern; the fuel
`s.length + 1` always suffices (`parseCreateAt_mono`). -/
def scanCreateFrom (s : List Char) : Nat → Nat → List (List Char × List Char)
  | 0, _ => []
  | fuel + 1, i =>
    if i < s.length then
      match parseCreateAt s i with
      | some (n, d, j) => (n, d) :: scanCreateFrom s fuel j
      | none => scanCreateFrom s fuel (i + 1)
    else []

def scanCreate (s : List Char) : List (List Char × List Char) :=
  scanCreateFrom s (s.length + 1) 0

/-! ### validate_foreign_key_actions -/

/-- The `in_space` run-collapsing loop of `normalize_whitespace`. -/
def collapseWs : List Char → Bool → List Char
  | [], _ => []
  | c :: cs, in_space =>
      if isWsC c then
        if in_space then collapseWs cs true else ' ' :: collapseWs cs true
      else c :: collapseWs cs false

/-- `normalize_whitespace`: collapse whitespace runs to single spaces, then
trim. -/
def normalize_whitespace (s : List Char) : List Char :=
  trim (collapseWs s false)

/-- The throwing condition on one FK match:
`to_upper(normalize_whitespace(delete)) == "CASCADE"` while the update action
normalises to something else. -/
def fkActionBad (du : List Char × List Char) : Bool :=
  (normalize_whitespace du.1).map chUp = "CASCADE".toList ∧
    ¬((normalize_whitespace du.2).map chUp = "CASCADE".toList)

/-- `validate_foreign_key_actions`: scan the whole text for FK-action pairs
and throw on the first (equivalently: any) `ON DELETE CASCADE` whose
`ON UPDATE` action is not `CASCADE`. -/
def validate_foreign_key_actions (sql : List Char) : Except String Unit :=
  if (scanFK sql).any fkActionBad then
    Except.error "Invalid foreign key actions"
  else Except.ok ()

/-! ### validate_vector_tables -/

/-- Case-sensitive prefix test on character lists. -/
def startsWithL : List Char → List Char → Bool
  | [], _ => true
  | _ :: _, [] => false
  | p :: ps, c :: cs => p = c ∧ startsWithL ps cs

/-- Case-insensitive prefix test (pattern given uppercase). -/
def startsWithICase (pat : List Char) (s : List Char) : Bool :=
  startsWithL pat (s.map chUp)

/-- Case-insensitive substring test (`std::regex_search` with a literal-ish
pattern). -/
def substrICase (pat : List Char) (s : List Char) : Bool :=
  (List.range (s.length + 1)).any fun i => startsWithICase pat (s.drop i)

/-- Whether a captured table name also matches the stricter
`\w+_vector_\w+` form: an inner `_vector_` with at least one (word)
character on each side.  (The name is a `\w+` capture, so all its
characters are word characters.) -/
def isVectorTableName (name : List Char) : Bool :=
  (List.range (name.length + 1)).any fun i =>
    1 ≤ i ∧ startsWithICase "_VECTOR_".toList (name.drop i) ∧ i + 9 ≤ name.length

/-- `std::regex_search(table_def, vector_index_pattern)` for
`vector_index\s+INTEGER` (case-insensitive, no anchors). -/
def hasVectorIndexColumn (tdef : List Char) : Bool :=
  (List.range (tdef.length + 1)).any fun i =>
    ((pLitAt "VECTOR_INDEX".toList tdef i).bind fun j =>
      (pWs1At tdef j).bind fun j2 => pLitAt "INTEGER".toList tdef j2).isSome

/-- `validate_vector_tables`: every table named `*_vector_*` must declare a
`vector_index INTEGER` column. -/
def validate_vector_tables (sql : List Char) : Except String Unit :=
  if (scanCreate sql).any (fun nt =>
      isVectorTableName nt.1 ∧ ¬hasVectorIndexColumn nt.2) then
    Except.error "Vector table must have a vector_index INTEGER column"
  else Except.ok ()

/-! ### validate_no_duplicated_attributes -/

/-- Split a table definition at commas lying outside parentheses
(`extract_columns`' main loop; the parentheses themselves are kept). -/
def splitTopComma : List Char → Int → List Char → List (List Char)
  | [], _, current => [current]
  | c :: cs, depth, current =>
      if c = '(' then splitTopComma cs (depth + 1) (current ++ [c])
      else if c = ')' then splitTopComma cs (depth - 1) (current ++ [c])
      else if c = ',' ∧ depth = 0 then current :: splitTopComma cs depth []
      else splitTopComma cs depth (current ++ [c])

/-- Process one comma-separated piece of a table definition: skip table
constraints, take the first word (up to space or tab — a piece without one
contributes nothing) lowercased, and drop the standard columns `id`,
`vector_index`, `label`. -/
def pieceColumn (piece : List Char) : Option (List Char) :=
  if startsWithL "FOREIGN KEY".toList ((trim piece).map chUp) ∨
      startsWithL "PRIMARY KEY".toList ((trim piece).map chUp) ∨
      startsWithL "UNIQUE".toList ((trim piece).map chUp) ∨
      startsWithL "CHECK".toList ((trim piece).map chUp) ∨
      startsWithL "CONSTRAINT".toList ((trim piece).map chUp) then none
  else
    match (trim piece).findIdx? (fun c => c = ' ' ∨ c = Char.ofNat 9) with
    | some spacePos =>
        if ((trim piece).take spacePos).map chLow = "id".toList ∨
            ((trim piece).take spacePos).map chLow = "vector_index".toList ∨
            ((trim piece).take spacePos).map chLow = "label".toList then none
        else some (((trim piece).take spacePos).map chLow)
    | none => none

/-- `extract_columns(table_def)`. -/
def extract_columns (tdef : List Char) : List (List Char) :=
  (splitTopComma tdef 0 []).filterMap pieceColumn

/-- The `std::map<std::string, std::vector<std::string>> tables` built by
`validate_no_duplicated_attributes` (later duplicate names overwrite). -/
def tablesOf (sql : List Char) : List (String × List (List Char)) :=
  (scanCreate sql).foldl
    (fun m nt => mapInsert nt.1.asString (extract_columns nt.2) m) []

/-- `tables.find(parent_name)`. -/
def mapFind {α : Type} (m : List (String × α)) (k : List Char) : Option α :=
  match m.find? (fun p => p.1.data = k) with
  | some p => some p.2
  | none => none

/-- `std::regex_search(name, ^(\w+)_(vector|set)_, icase)`: the greedy `\w+`
backtracks to the last viable split, so the captured parent is the longest
all-word prefix followed by `_vector_` or `_set_`. -/
def parentOf (name : List Char) : Option (List Char) :=
  match (List.range (name.length + 1)).reverse.find? (fun i =>
      1 ≤ i ∧ (name.take i).all isWordC ∧
        (startsWithICase "_VECTOR_".toList (name.drop i) ∨
          startsWithICase "_SET_".toList (name.drop i))) with
  | some i => some (name.take i)
  | none => none

/-- `validate_no_duplicated_attributes`: no extracted column of an auxiliary
`<C>_vector_*` / `<C>_set_*` table may also be an extracted column of its
parent table `<C>`. -/
def validate_no_duplicated_attributes (sql : List Char) : Except String Unit :=
  if (tablesOf sql).any (fun nt =>
      match parentOf nt.1.data with
      | some parent =>
          match mapFind (tablesOf sql) parent with
          | some parentCols => nt.2.any (fun col => parentCols.contains col)
          | none => false
      | none => false) then
    Except.error "Duplicated attribute"
  else Except.ok ()

/-! ### validate_collection_tables -/

/-- `std::regex_search(name, _(vector|set|time_series)_, icase)`. -/
def isAuxName (name : List Char) : Bool :=
  substrICase "_VECTOR_".toList name ∨ substrICase "_SET_".toList name ∨
    substrICase "_TIME_SERIES_".toList name

/-- `std::regex_search(name, _files$, icase)`. -/
def endsWithFilesICase (name : List Char) : Bool :=
  6 ≤ name.length ∧ startsWithICase "_FILES".toList (name.drop (name.length - 6))

/-- Whether position `i` of `s` is past the end or holds a non-word
character (for `\b`). -/
def notWordAt (s : List Char) (i : Nat) : Bool :=
  match s.drop i with
  | [] => true
  | c :: _ => ¬isWordC c

/-- `std::regex_search(table_def, \blabel\b, icase)`. -/
def hasLabelToken (tdef : List Char) : Bool :=
  (List.range (tdef.length + 1)).any fun i =>
    startsWithICase "LABEL".toList (tdef.drop i) ∧
      (i = 0 ∨ notWordAt tdef (i - 1)) ∧ notWordAt tdef (i + 5)

/-- The throwing condition of `validate_collection_tables` for one scanned
table: not auxiliary, not `Configuration`, not `*_files`, and no `label`
token in its definition. -/
def collectionTableBad (nt : List Char × List Char) : Bool :=
  ¬isAuxName nt.1 ∧ ¬(nt.1.map chLow = "configuration".toList) ∧
    ¬endsWithFilesICase nt.1 ∧ ¬hasLabelToken nt.2

/-- `validate_collection_tables`. -/
def validate_collection_tables (sql : List Char) : Except String Unit :=
  if (scanCreate sql).any collectionTableBad then
    Except.error "Collection table must have a label column"
  else Except.ok ()

/-- `validate_schema`: the four checks in source order; the first throw wins. -/
def validate_schema (sql : List Char) : Except String Unit := do
  validate_foreign_key_actions sql
  validate_vector_tables sql
  validate_no_duplicated_attributes sql
  validate_collection_tables sql

/-- The observable outcome of `psr_database_from_sql_file` on a schema text:
a schema-validation error raised before any statement reaches the database,
or the validated statement list executed in order. -/
inductive LoadResult where
  | schemaError
  | loaded (statements : List (List Char))
deriving DecidableEq, Repr

/-- `psr_database_from_sql_file` after the file has been read: validate the
whole text first (any validator throw is mapped to
`PSR_ERROR_SCHEMA_VALIDATION` and nothing is executed), then split into
statements and execute each. -/
def psr_database_from_sql_file (sql : List Char) : LoadResult :=
  match validate_schema sql with
  | Except.error _ => LoadResult.schemaError
  | Except.ok _ => LoadResult.loaded (split_sql_statements sql)

/-! ## C ABI null-argument guards (src/c_api.cpp)

Each modelled entry point takes its pointer arguments as `Option`s; the body
behind the guard (the call into `psr::Database`) is an oracle parameter, so
the guard equations below hold for every possible body — null arguments are
answered without reaching the database.  `psr_database` pairs the core
database object with the handle's `last_error` string. -/

inductive PsrError where
  | ok
  | invalid_argument
  | database
  | query
  | no_memory
  | not_open
  | index_out_of_range
  | migration
  | schema_validation
  | not_found
deriving DecidableEq, Repr

/-- A C++ exception escaping a core call: `std::bad_alloc` or another
`std::exception` with its `what()` message. -/
inductive CppExc where
  | badAlloc
  | stdExc (what : String)
deriving DecidableEq, Repr

def CppExc.what : CppExc → String
  | CppExc.badAlloc => "std::bad_alloc"
  | CppExc.stdExc w => w

/-- `struct psr_database { psr::Database db; std::string last_error; }`. -/
structure DbHandle (Db : Type) where
  db : Db
  last_error : String

/-- `psr_database_open`: a null path yields `PSR_ERROR_INVALID_ARGUMENT` and a
null handle before the constructor runs; otherwise the constructor's outcome
is translated (`bad_alloc` → `NO_MEMORY`, other exception → `DATABASE`). -/
def psr_database_open {Db : Type} (construct : String → Except CppExc Db)
    (path : Option String) : Option (DbHandle Db) × PsrError :=
  match path with
  | none => (none, PsrError.invalid_argument)
  | some p =>
      match construct p with
      | Except.ok db => (some ⟨db, ""⟩, PsrError.ok)
      | Except.error CppExc.badAlloc => (none, PsrError.no_memory)
      | Except.error (CppExc.stdExc _) => (none, PsrError.database)

/-- `psr_database_close` is `delete db`; deleting a null pointer destroys
nothing and is well defined.  The result records whether a handle was
destroyed. -/
def psr_database_close {Db : Type} (db : Option (DbHandle Db)) : Bool :=
  db.isSome

/-- `psr_database_create_element`: null handle, table or element short-circuit
to `PSR_ERROR_INVALID_ARGUMENT` with return value 0 and the handle untouched;
otherwise the guarded body (`db->db.create_element(...)`, abstracted as
`impl`) runs under try/catch, a caught exception setting `last_error` and
yielding `PSR_ERROR_QUERY` with return value 0. -/
def psr_database_create_element {Db E : Type}
    (impl : Db → String → E → Except CppExc (Int × Db))
    (db : Option (DbHandle Db)) (table : Option String) (elem : Option E) :
    Int × PsrError × Option (DbHandle Db) :=
  match db, table, elem with
  | some h, some t, some e =>
      match impl h.db t e with
      | Except.ok (rowid, db2) => (rowid, PsrError.ok, some ⟨db2, h.last_error⟩)
      | Except.error exc => (0, PsrError.query, some ⟨h.db, exc.what⟩)
  | _, _, _ => (0, PsrError.invalid_argument, db)

/-- `psr_database_delete_element`: null handle, collection or label
short-circuit to `PSR_ERROR_INVALID_ARGUMENT`; otherwise
`db->db.delete_element(collection, label)` (abstracted as `impl`) runs under
try/catch as above. -/
def psr_database_delete_element {Db : Type}
    (impl : Db → String → String → Except CppExc Db)
    (db : Option (DbHandle Db)) (collection : Option String)
    (label : Option String) : PsrError × Option (DbHandle Db) :=
  match db, collection, label with
  | some h, some c, some l =>
      match impl h.db c l with
      | Except.ok db2 => (PsrError.ok, some ⟨db2, h.last_error⟩)
      | Except.error exc => (PsrError.query, some ⟨h.db, exc.what⟩)
  | _, _, _ => (PsrError.invalid_argument, db)

/-- C2 (claim as stated): for a Real-typed column, `validate_value` is claimed
to accept an Integer value.  The code rejects it: counterexample at the
concrete context "capacity" and integer 1. -/
theorem C2_counterexample :
    validate_value "capacity" ColumnType.Real (Value.vint 1) =
      Except.error (mismatch "capacity" ColumnType.Real "INTEGER") := rfl

/-- C2 (amended): for every column whose declared type is Real,
`validate_value` rejects a Value holding an Integer with a type-mismatch
error naming the expected type REAL and the provided tag INTEGER. -/
theorem C2_real_column_rejects_integer (context : String) (i : Int) :
    validate_value context ColumnType.Real (Value.vint i) =
      Except.error (mismatch context ColumnType.Real "INTEGER") := by
  simp [validate_value]

/-- C3 (claim as stated): for an Integer-typed column, `validate_value` is
claimed to reject a Real value.  The code accepts it ("REAL can be stored in
INTEGER or REAL columns"): counterexample at the concrete context "count"
and the double with bit pattern 0. -/
theorem C3_counterexample :
    validate_value "count" ColumnType.Integer (Value.vreal ⟨0⟩) = Except.ok () := rfl

/-- C3 (amended): for every column whose declared type is Integer,
`validate_value` accepts a Value holding a Real (doubles may be bound to
Integer-typed as well as Real-typed columns; no type-mismatch error). -/
theorem C3_integer_column_accepts_real (context : String) (r : F64) :
    validate_value context ColumnType.Integer (Value.vreal r) = Except.ok () := by
  simp [validate_value]

/-- A schema whose only FK clause has `ON DELETE CASCADE` and no `ON UPDATE`
clause at all. -/
def fkOnlyDeleteCascadeSchema : String :=
  "CREATE TABLE Parent (id INTEGER PRIMARY KEY, label TEXT);\nCREATE TABLE Child (id INTEGER PRIMARY KEY, label TEXT, parent_id INTEGER, FOREIGN KEY(parent_id) REFERENCES Parent(id) ON DELETE CASCADE);"

/-- A schema whose FK clause has `ON DELETE CASCADE ON UPDATE SET NULL`. -/
def fkCascadeSetNullSchema : String :=
  "CREATE TABLE Child (id INTEGER, label TEXT, x INTEGER, FOREIGN KEY(x) REFERENCES Y(id) ON DELETE CASCADE ON UPDATE SET NULL);"

/-- A main table whose `label` column is declared `INTEGER` (not
`TEXT UNIQUE NOT NULL`). -/
def labelIntegerSchema : String :=
  "CREATE TABLE Plant (id INTEGER PRIMARY KEY, label INTEGER);"

/-- A main table with no `label` column at all. -/
def noLabelSchema : String :=
  "CREATE TABLE Plant (id INTEGER PRIMARY KEY);"

/-- C5: `split_sql_statements` ends a statement exactly at each `;` outside a
single- or double-quoted literal (a backslash-preceded quote never toggles
the literal state), and returns the whitespace-trimmed non-empty fragments —
including a trailing fragment with no terminating `;` — in input order:
the scanning loop equals the cut-trim-filter specification `specSplit`. -/
theorem C5_split_statement_boundaries (sql : List Char) :
    split_sql_statements sql = specSplit sql := by
  rw [split_sql_statements, specSplit]
  simpa using splitLoop_spec sql none false (Char.ofNat 0) [] [] none
    (fun _ => rfl) (fun _ h => Option.noConfusion h)

/-- C1 (claim as stated): schema loading is claimed to reject every FK clause
combining `ON DELETE CASCADE` with anything other than `ON UPDATE CASCADE`,
including the absence of an `ON UPDATE` clause.  Counterexample: a schema
whose FK clause has `ON DELETE CASCADE` and no `ON UPDATE` clause does not
match the validator's pattern (which requires both clauses, in that order)
and is loaded without a schema-validation error. -/
theorem C1_counterexample :
    validate_schema fkOnlyDeleteCascadeSchema.toList = Except.ok () ∧
      psr_database_from_sql_file fkOnlyDeleteCascadeSchema.toList ≠
        LoadResult.schemaError := by
  have h : validate_schema fkOnlyDeleteCascadeSchema.toList = Except.ok () := by rfl
  refine ⟨h, ?_⟩
  rw [psr_database_from_sql_file, h]
  intro hc
  exact LoadResult.noConfusion hc

/-- C1 (amended): whenever the FK-action scan finds a clause of the form
`FOREIGN KEY(…) REFERENCES …(…) ON DELETE <action> ON UPDATE <action>` whose
delete action is `CASCADE` and whose update action is not `CASCADE`,
`psr_database_from_sql_file` fails with the schema-validation error before
executing any statement.  (A clause with `ON DELETE CASCADE` but no
`ON UPDATE` clause is not rejected.) -/
theorem C1_fk_cascade_mismatch_rejected (sql : List Char)
    (h : ∃ du ∈ scanFK sql, fkActionBad du = true) :
    psr_database_from_sql_file sql = LoadResult.schemaError := by
  have h1 : validate_foreign_key_actions sql =
      Except.error "Invalid foreign key actions" := by
    rw [validate_foreign_key_actions, if_pos (List.any_eq_true.mpr h)]
  have h2 : validate_schema sql = Except.error "Invalid foreign key actions" := by
    rw [validate_schema, h1]
    rfl
  rw [psr_database_from_sql_file, h2]

/-- C1 witness: the amended theorem applied to a concrete schema with
`ON DELETE CASCADE ON UPDATE SET NULL`. -/
theorem C1_witness :
    psr_database_from_sql_file fkCascadeSetNullSchema.toList =
      LoadResult.schemaError :=
  C1_fk_cascade_mismatch_rejected _ (by decide)

/-- C4 (claim as stated): the loader is claimed to require every
non-reserved Main table to declare `label TEXT UNIQUE NOT NULL`.
Counterexample: a schema declaring `label INTEGER` (neither TEXT nor UNIQUE
nor NOT NULL) passes schema validation and is loaded. -/
theorem C4_counterexample :
    validate_schema labelIntegerSchema.toList = Except.ok () ∧
      psr_database_from_sql_file labelIntegerSchema.toList ≠
        LoadResult.schemaError := by
  have h : validate_schema labelIntegerSchema.toList = Except.ok () := by rfl
  refine ⟨h, ?_⟩
  rw [psr_database_from_sql_file, h]
  intro hc
  exact LoadResult.noConfusion hc

/-- C4 (amended): every scanned Main table other than `Configuration`,
`*_files` names and auxiliary `_vector_/_set_/_time_series_` names must
contain a `label` word token in its definition (its declared type and
constraints are not checked); a loader given a schema with such a table
lacking the token fails with the schema-validation error before executing
any statement — hence every accepted schema has the token in every such
table. -/
theorem C4_main_table_without_label_rejected (sql : List Char)
    (h : ∃ nt ∈ scanCreate sql, collectionTableBad nt = true) :
    psr_database_from_sql_file sql = LoadResult.schemaError := by
  have h4 : validate_collection_tables sql =
      Except.error "Collection table must have a label column" := by
    rw [validate_collection_tables, if_pos (List.any_eq_true.mpr h)]
  have h2 : ∃ e, validate_schema sql = Except.error e := by
    rw [validate_schema]
    cases hv1 : validate_foreign_key_actions sql with
    | error e1 => exact ⟨e1, rfl⟩
    | ok u1 =>
      cases hv2 : validate_vector_tables sql with
      | error e2 => exact ⟨e2, rfl⟩
      | ok u2 =>
        cases hv3 : validate_no_duplicated_attributes sql with
        | error e3 => exact ⟨e3, rfl⟩
        | ok u3 => exact ⟨_, h4⟩
  rcases h2 with ⟨e, he⟩
  rw [psr_database_from_sql_file, he]

/-- C4 witness: the amended theorem applied to a concrete schema whose main
table has no label column. -/
theorem C4_witness :
    psr_database_from_sql_file noLabelSchema.toList = LoadResult.schemaError :=
  C4_main_table_without_label_rejected _ (by decide)

/-- C9: the modelled C-ABI entry points are total in their handle and required
pointer arguments: whatever the underlying database operation would do
(`construct`, `createImpl`, `deleteImpl` are arbitrary), a null database
handle, null element, or null required string yields
`PSR_ERROR_INVALID_ARGUMENT` (with null/0 return) and leaves the handle
untouched — the database operation is never consulted — and
`psr_database_close` on a null handle destroys nothing. -/
theorem C9_c_abi_null_guards {Db E : Type}
    (construct : String → Except CppExc Db)
    (createImpl : Db → String → E → Except CppExc (Int × Db))
    (deleteImpl : Db → String → String → Except CppExc Db)
    (h : DbHandle Db) (t c l : String) (e : E) :
    psr_database_open construct none = (none, PsrError.invalid_argument) ∧
    psr_database_close (none : Option (DbHandle Db)) = false ∧
    psr_database_create_element createImpl none (some t) (some e) =
      (0, PsrError.invalid_argument, none) ∧
    psr_database_create_element createImpl (some h) none (some e) =
      (0, PsrError.invalid_argument, some h) ∧
    psr_database_create_element createImpl (some h) (some t) none =
      (0, PsrError.invalid_argument, some h) ∧
    psr_database_delete_element deleteImpl none (some c) (some l) =
      (PsrError.invalid_argument, none) ∧
    psr_database_delete_element deleteImpl (some h) none (some l) =
      (PsrError.invalid_argument, some h) ∧
    psr_database_delete_element deleteImpl (some h) (some c) none =
      (PsrError.invalid_argument, some h) :=
  ⟨rfl, rfl, rfl, rfl, rfl, rfl, rfl, rfl⟩

/-- C6: the Transaction guard resolves the transaction on every exit path and
commits only on explicit commit.  For every sequence of commit/rollback calls
followed by destruction: the destroyed guard is committed or rolled back;
it is never both (before or after destruction); it ends committed iff a
commit call happened while the guard was still active; a commit after a
rollback and a rollback after a commit fail; and destruction without a prior
commit triggers rollback. -/
theorem C6_transaction_guard_resolution (evs : List TxEvent) :
    ((Transaction.runEvents evs).destroy.committed = true ∨
      (Transaction.runEvents evs).destroy.rolled_back = true) ∧
    ¬((Transaction.runEvents evs).destroy.committed = true ∧
      (Transaction.runEvents evs).destroy.rolled_back = true) ∧
    ¬((Transaction.runEvents evs).committed = true ∧
      (Transaction.runEvents evs).rolled_back = true) ∧
    ((Transaction.runEvents evs).destroy.committed = true ↔
      ∃ n : Nat, (Transaction.runEvents (evs.take n)).is_active = true ∧
        evs[n]? = some TxEvent.commit) ∧
    ((Transaction.runEvents evs).rolled_back = true →
      (Transaction.runEvents evs).commit = Except.error TxError.alreadyRolledBack) ∧
    ((Transaction.runEvents evs).committed = true →
      (Transaction.runEvents evs).rollback = Except.error TxError.cannotRollbackCommitted) ∧
    ((Transaction.runEvents evs).committed = false →
      (Transaction.runEvents evs).destroy.rolled_back = true) := by
  cases evs with
  | nil =>
    refine ⟨Or.inr (by decide), by decide, by decide, ?_,
      fun h => absurd h (by decide), fun h => absurd h (by decide), fun _ => by decide⟩
    constructor
    · intro h
      exact absurd h (by decide)
    · rintro ⟨n, _, hget⟩
      simp at hget
  | cons e rest =>
    cases e with
    | commit =>
      rw [Transaction.runEvents_commit]
      refine ⟨Or.inl (by decide), by decide, by decide, ?_,
        fun h => absurd h (by decide), fun _ => rfl, fun h => absurd h (by decide)⟩
      constructor
      · intro _
        refine ⟨0, ?_, ?_⟩
        · show (Transaction.runEvents []).is_active = true
          decide
        · simp
      · intro _
        decide
    | rollback =>
      rw [Transaction.runEvents_rollback]
      refine ⟨Or.inr (by decide), by decide, by decide, ?_, fun _ => rfl,
        fun h => absurd h (by decide), fun _ => by decide⟩
      constructor
      · intro h
        exact absurd h (by decide)
      · rintro ⟨n, hact, hget⟩
        cases n with
        | zero => simp at hget
        | succ m =>
          rw [List.take_succ_cons, Transaction.runEvents_rollback] at hact
          exact absurd hact (by decide)

/-- C6 witness: the theorem applied to the concrete event list
`[rollback]`, discharging the hypotheses of its conditional conjuncts. -/
theorem C6_witness :
    (Transaction.runEvents [TxEvent.rollback]).commit =
        Except.error TxError.alreadyRolledBack ∧
      (Transaction.runEvents [TxEvent.rollback]).destroy.rolled_back = true :=
  ⟨(C6_transaction_guard_resolution [TxEvent.rollback]).2.2.2.2.1 (by decide),
   (C6_transaction_guard_resolution [TxEvent.rollback]).2.2.2.2.2.2 (by decide)⟩

/-- C7: the migration list built from a directory contains exactly the
directory entries that are directories whose whole name parses (by the
`strtoll` grammar, within the signed 64-bit range) to a version greater
than zero — every other entry is dropped without error — and the list is a
permutation of those selections sorted in ascending version order. -/
theorem C7_migrations_directory_scan (entries : List DirEntry) :
    (Migrations entries).Perm (entries.filterMap migrationOfEntry) ∧
    (Migrations entries).Pairwise (fun a b => a.version ≤ b.version) ∧
    (∀ m ∈ Migrations entries, 0 < m.version ∧ ∃ e ∈ entries,
      e.is_directory = true ∧ m.path = e.path ∧
        stoll e.name.toList = some (m.version, e.name.toList.length)) ∧
    (∀ e ∈ entries, ∀ v : Int, e.is_directory = true →
      stoll e.name.toList = some (v, e.name.toList.length) → 0 < v →
        (⟨v, e.path⟩ : Migration) ∈ Migrations entries) := by
  refine ⟨List.mergeSort_perm _ _, ?_, ?_, ?_⟩
  · have hs := List.sorted_mergeSort migrationLE_trans
      migrationLE_total (entries.filterMap migrationOfEntry)
    refine hs.imp ?_
    intro a b hab
    rw [migrationLE, decide_eq_true_eq] at hab
    exact hab
  · intro m hm
    have hmem : m ∈ entries.filterMap migrationOfEntry :=
      (List.mergeSort_perm (entries.filterMap migrationOfEntry) migrationLE).subset hm
    rcases List.mem_filterMap.mp hmem with ⟨e, he, hsome⟩
    rcases migrationOfEntry_eq_some.mp hsome with ⟨hd, hv, hpath, hstoll⟩
    exact ⟨hv, e, he, hd, hpath, hstoll⟩
  · intro e he v hd hstoll hv
    have hsome : migrationOfEntry e = some ⟨v, e.path⟩ :=
      migrationOfEntry_eq_some.mpr ⟨hd, hv, rfl, hstoll⟩
    have hmem : (⟨v, e.path⟩ : Migration) ∈ entries.filterMap migrationOfEntry :=
      List.mem_filterMap.mpr ⟨e, he, hsome⟩
    exact ((List.mergeSort_perm (entries.filterMap migrationOfEntry)
      migrationLE).symm.subset) hmem

/-- C7 witness: the theorem applied to a concrete directory listing with a
numeric directory "7", a non-numeric directory "README", a partial parse
"3x", a non-positive name "0", and a numeric plain file "5". -/
theorem C7_witness :
    (⟨7, "/migrations/7"⟩ : Migration) ∈
      Migrations [⟨"README", "/migrations/README", true⟩,
        ⟨"7", "/migrations/7", true⟩, ⟨"3x", "/migrations/3x", true⟩,
        ⟨"0", "/migrations/0", true⟩, ⟨"5", "/migrations/5", false⟩] :=
  (C7_migrations_directory_scan _).2.2.2 ⟨"7", "/migrations/7", true⟩
    (by decide) 7 (by decide) (by decide) (by decide)

/-- C8 (claim as stated): `scalars()` is claimed to iterate in the order the
names were first set.  Counterexample: setting "b" then "a" on a fresh
element iterates as ["a", "b"], not the insertion order ["b", "a"]
(`std::map` iterates in key order). -/
theorem C8_counterexample :
    ((Element.empty.set_int "b" 1).set_int "a" 2).scalars.map Prod.fst ≠ ["b", "a"] ∧
      ((Element.empty.set_int "b" 1).set_int "a" 2).scalars.map Prod.fst = ["a", "b"] := by
  constructor
  · decide
  · decide

/-- C8 (amended): an Element holds its scalar attributes in a `std::map`
keyed by name: for every sequence of set calls, iterating `scalars()` yields
the entries in strictly ascending lexicographic name order (one entry per
name), not in insertion order. -/
theorem C8_scalars_iterate_in_name_order (ops : List ElemOp) :
    ((Element.applyOps ops).scalars.map Prod.fst).Pairwise
      (fun a b => stringLt a b = true) := by
  have h := (Element.applyOps_sorted ops).1
  rw [keysSorted] at h
  exact List.pairwise_map.mpr h

/-- C10: Element/ElementBuilder setters are last-write-wins and `clear()` is
total: after any prior sequence of calls, setting the same attribute name
twice (scalar or vector) leaves exactly one entry for that name holding the
second value, and after `clear()` both maps are empty and `has_scalars` /
`has_vectors` report false. -/
theorem C10_setters_last_write_wins_and_clear_total (ops : List ElemOp)
    (name : String) (v1 v2 w1 w2 : Value) :
    ((((Element.applyOps ops).setValue name v1).setValue name v2).scalars.filter
        (fun p => p.1 == name)) = [(name, v2)] ∧
    ((((Element.applyOps ops).setVectorValue name w1).setVectorValue name w2).vectors.filter
        (fun p => p.1 == name)) = [(name, w2)] ∧
    (Element.applyOps ops).clear.scalars = [] ∧
    (Element.applyOps ops).clear.vectors = [] ∧
    (Element.applyOps ops).clear.has_scalars = false ∧
    (Element.applyOps ops).clear.has_vectors = false := by
  refine ⟨?_, ?_, rfl, rfl, rfl, rfl⟩
  · have hs := (Element.applyOps_sorted ops).1
    have h1 : keysSorted (mapInsert name v1 (Element.applyOps ops).scalars) :=
      mapInsert_pairwise hs
    simpa [Element.setValue] using mapInsert_filter_eq h1
  · have hs := (Element.applyOps_sorted ops).2
    have h1 : keysSorted (mapInsert name w1 (Element.applyOps ops).vectors) :=
      mapInsert_pairwise hs
    simpa [Element.setVectorValue] using mapInsert_filter_eq h1

end PsrDb
